import Mathlib

/-!
Verification of the bounded-concurrency job scheduler in
`src/taskSchedular.cpp` (class `Scheduler`, lines 14–91).

The scheduler owns a mutex, a condition variable, a capacity
`maxJobsAllowed`, an error callback `error`, and an in-flight counter
`countJobs`.  `schedule` (lines 41–81) acquires the mutex, waits on the
condition until `countJobs < maxJobsAllowed`, increments `countJobs`,
spawns a detached thread for the job and returns; the spawned thread
(lines 59–79) sleeps for the delay, runs the job body under a
try/catch that forwards failures to the error callback, then calls
`condition.notify_one()` and decrements `countJobs` — note that the
spawned thread performs this decrement (line 78) without ever locking
the mutex, and that it notifies (line 77) before decrementing.
`wait` (lines 83–91) acquires the mutex and waits on the condition
until `countJobs == 0`.

The embedding is an interleaving transition system: a global state
`GState` holds the scheduler fields, the mutex owner and one `Phase`
per thread, and `stepThread` performs one atomic step of one thread.
Program points are translated line by line from the source; in
particular the decrement step `Phase.jDec` requires no lock, exactly
as line 78 does.  Real time is abstracted: the sleep at line 62 is a
single step that must occur before the job body runs, and `n`
milliseconds are carried as a `Nat`.
-/

namespace TaskSchedular

/-- Outcome of one job body (the `Job` function pointer of line 8).
`success` = the call returns; `exn msg` = it throws a value derived
from `std::exception` whose `what()` message is `msg`; `unknown` = it
throws a value of any other type (caught by `catch (...)`). -/
inductive Outcome where
  | success : Outcome
  | exn : String → Outcome
  | unknown : Outcome
  deriving DecidableEq, Repr

/-- Lines 64–75: the per-job try/catch wrapper around `(*job)()`.
Returns the list of failure descriptions handed to the error callback
while running a body with the given outcome: a caught `std::exception`
is reported with its own `what()` message (line 70), any other thrown
value is reported as "Unknown" (line 74), and a successful body
reports nothing.  The wrapper has no failure path of its own. -/
def jobWrapper : Outcome → List String
  | Outcome.success => []
  | Outcome.exn msg => [msg]
  | Outcome.unknown => ["Unknown"]

/-- The scheduler object as the constructor (lines 33–39) initializes
it: the capacity `maxJobsAllowed` and the in-flight counter
`countJobs`, which the member initializer `size_t countJobs{}` (line
30) zero-initializes.  The mutex, condition variable and error
callback are modelled in the transition system below. -/
structure Scheduler where
  maxJobsAllowed : Nat
  countJobs : Nat
  deriving DecidableEq, Repr

/-- Lines 33–39: `Scheduler::Scheduler(size_t, Error)`.  The error
callback is modelled by an `Option`: `none` is a null function
pointer.  A null callback makes the constructor throw
`std::runtime_error("non-null error callback required")` (lines
35–38), so no object is produced; otherwise the object starts with
`countJobs = 0`.  The capacity is not validated. -/
def mkScheduler (size : Nat) (error : Option Unit) : Except String Scheduler :=
  match error with
  | none => Except.error ("non-null error callback required")
  | some _ => Except.ok { maxJobsAllowed := size, countJobs := 0 }

/-- Program points of one thread.  `s…` phases belong to a caller
running `schedule` (lines 41–81), `j…` phases to a spawned job thread
(lines 59–79), `w…` phases to a caller running `wait` (lines 83–91).
`o` is the job body's outcome and `d` its delay in milliseconds.

* `sEnter o d`  — about to construct the `unique_lock` (line 44);
* `sWaiting o d` — inside `condition.wait` holding the mutex, about to
  test `countJobs < maxJobsAllowed` (lines 47–48);
* `sBlocked o d` — asleep inside `condition.wait`, mutex released;
* `sInc o d`   — predicate passed, about to run `countJobs++` (line 49);
* `sSpawn o d` — about to construct and detach the job thread
  (lines 58–80);
* `sRet`       — about to return, releasing the mutex at scope exit
  (line 81);
* `sDone`      — `schedule` has returned to its caller;
* `jSleep o d` — job thread inside `sleep_for` (line 62);
* `jRun o`     — about to run the body under the try/catch (lines 64–75);
* `jNotify`    — about to run `condition.notify_one()` (line 77);
* `jDec`       — about to run `countJobs--` (line 78), no lock held;
* `jDone`      — job thread finished;
* `wEnter`     — about to construct the `unique_lock` (line 86);
* `wWaiting`   — inside `condition.wait` holding the mutex, about to
  test `countJobs == 0` (lines 89–90);
* `wBlocked`   — asleep inside `condition.wait`, mutex released;
* `wRet`       — predicate passed, about to return from `wait`,
  releasing the mutex at scope exit (line 91);
* `wDone`      — `wait` has returned to its caller. -/
inductive Phase where
  | sEnter : Outcome → Nat → Phase
  | sWaiting : Outcome → Nat → Phase
  | sBlocked : Outcome → Nat → Phase
  | sInc : Outcome → Nat → Phase
  | sSpawn : Outcome → Nat → Phase
  | sRet : Phase
  | sDone : Phase
  | jSleep : Outcome → Nat → Phase
  | jRun : Outcome → Phase
  | jNotify : Phase
  | jDec : Phase
  | jDone : Phase
  | wEnter : Phase
  | wWaiting : Phase
  | wBlocked : Phase
  | wRet : Phase
  | wDone : Phase
  deriving DecidableEq, Repr

/-- Global state of one `Scheduler` instance together with every
thread that touches it.  `lock` is the owner of `this->mutex` (`none`
= unlocked), `threads` gives each thread's current program point
(thread ids are list positions; spawning appends), and `errLog` is
the sequence of failure descriptions passed to the error callback so
far, in order. -/
structure GState where
  maxJobsAllowed : Nat
  countJobs : Nat
  lock : Option Nat
  threads : List Phase
  errLog : List String
  deriving DecidableEq, Repr

/-- One atomic step of thread `i`, translated from lines 41–91 of the
source.  `none` means thread `i` cannot move (it does not exist, it
has finished, or it is blocked on the mutex / the condition's
predicate).  Each phase's step is listed in source order; the only
steps that touch `countJobs` are `sInc` (line 49, mutex held) and
`jDec` (line 78, deliberately requiring no mutex, as in the source). -/
def stepThread (s : GState) (i : Nat) : Option GState :=
  match s.threads.get? i with
  | none => none
  | some ph =>
    match ph with
    | Phase.sEnter o d =>
        if s.lock = none then
          some { s with lock := some i, threads := s.threads.set i (Phase.sWaiting o d) }
        else none
    | Phase.sWaiting o d =>
        if s.lock = some i then
          if s.countJobs < s.maxJobsAllowed then
            some { s with threads := s.threads.set i (Phase.sInc o d) }
          else
            some { s with lock := none, threads := s.threads.set i (Phase.sBlocked o d) }
        else none
    | Phase.sBlocked o d =>
        if s.lock = none then
          some { s with lock := some i, threads := s.threads.set i (Phase.sWaiting o d) }
        else none
    | Phase.sInc o d =>
        if s.lock = some i then
          some { s with countJobs := s.countJobs + 1,
                        threads := s.threads.set i (Phase.sSpawn o d) }
        else none
    | Phase.sSpawn o d =>
        if s.lock = some i then
          some { s with threads := (s.threads.set i Phase.sRet) ++ [Phase.jSleep o d] }
        else none
    | Phase.sRet =>
        if s.lock = some i then
          some { s with lock := none, threads := s.threads.set i Phase.sDone }
        else none
    | Phase.sDone => none
    | Phase.jSleep o _ =>
        some { s with threads := s.threads.set i (Phase.jRun o) }
    | Phase.jRun o =>
        some { s with errLog := s.errLog ++ jobWrapper o,
                      threads := s.threads.set i Phase.jNotify }
    | Phase.jNotify =>
        some { s with threads := s.threads.set i Phase.jDec }
    | Phase.jDec =>
        some { s with countJobs := s.countJobs - 1,
                      threads := s.threads.set i Phase.jDone }
    | Phase.jDone => none
    | Phase.wEnter =>
        if s.lock = none then
          some { s with lock := some i, threads := s.threads.set i Phase.wWaiting }
        else none
    | Phase.wWaiting =>
        if s.lock = some i then
          if s.countJobs = 0 then
            some { s with threads := s.threads.set i Phase.wRet }
          else
            some { s with lock := none, threads := s.threads.set i Phase.wBlocked }
        else none
    | Phase.wBlocked =>
        if s.lock = none then
          some { s with lock := some i, threads := s.threads.set i Phase.wWaiting }
        else none
    | Phase.wRet =>
        if s.lock = some i then
          some { s with lock := none, threads := s.threads.set i Phase.wDone }
        else none
    | Phase.wDone => none

/-- A thread as the client starts it: a caller of
`schedule(job, delay)` or a caller of `wait()`. -/
inductive InitThread where
  | sched : Outcome → Nat → InitThread
  | waiter : InitThread
  deriving DecidableEq, Repr

/-- Program point at which a client thread starts. -/
def initPhase : InitThread → Phase
  | InitThread.sched o d => Phase.sEnter o d
  | InitThread.waiter => Phase.wEnter

/-- State of a freshly constructed scheduler of capacity `cap`
(mutex unlocked, `countJobs = 0` by line 30, no error reported)
together with the given client threads, none of which has moved. -/
def startState (cap : Nat) (ts : List InitThread) : GState :=
  { maxJobsAllowed := cap, countJobs := 0, lock := none,
    threads := ts.map initPhase, errLog := [] }

/-- Runs a schedule of thread ids from a state: `run s (i :: tr)`
performs one step of thread `i` and continues.  `none` when some
listed thread cannot move. -/
def run : GState → List Nat → Option GState
  | s, [] => some s
  | s, i :: tr =>
    match stepThread s i with
    | some t => run t tr
    | none => none

/-- Phases at which the thread holds `this->mutex`: between the
`unique_lock` construction and either a `condition.wait` release or
the scope exit that unlocks. -/
def lockNeeded : Phase → Bool
  | Phase.sWaiting _ _ => true
  | Phase.sInc _ _ => true
  | Phase.sSpawn _ _ => true
  | Phase.sRet => true
  | Phase.wWaiting => true
  | Phase.wRet => true
  | _ => false

/-- Contribution of a thread's phase to the in-flight count: 1 from
the moment its `countJobs++` (line 49) has executed until its
`countJobs--` (line 78) executes.  The contribution moves from the
admitting caller (`sSpawn`) to the spawned thread (`jSleep`) at the
spawn step. -/
def runningContrib : Phase → Nat
  | Phase.sSpawn _ _ => 1
  | Phase.jSleep _ _ => 1
  | Phase.jRun _ => 1
  | Phase.jNotify => 1
  | Phase.jDec => 1
  | _ => 0

/-- Number of admitted-but-not-yet-decremented executions. -/
def running (s : GState) : Nat := (s.threads.map runningContrib).sum

/-- The inductive invariant of the transition system.
`lock_phase`: a thread at a mutex-holding program point owns the
mutex (so at most one thread is at such a point).  `inc_lt`: a thread
about to run `countJobs++` saw the admission predicate hold, and it
still holds.  `wret_zero`: a thread about to return from `wait`
observed `countJobs == 0`, and it still holds.  `count_run`: the
counter equals the number of admitted, undecremented executions.
`count_le`: the counter never exceeds the capacity. -/
structure Inv (s : GState) : Prop where
  lock_phase : ∀ i p, s.threads.get? i = some p → lockNeeded p = true → s.lock = some i
  inc_lt : ∀ i o d, s.threads.get? i = some (Phase.sInc o d) →
    s.countJobs < s.maxJobsAllowed
  wret_zero : ∀ i, s.threads.get? i = some Phase.wRet → s.countJobs = 0
  count_run : s.countJobs = running s
  count_le : s.countJobs ≤ s.maxJobsAllowed

theorem lt_length_of_get? {α : Type} {l : List α} {i : Nat} {a : α}
    (h : l.get? i = some a) : i < l.length := by
  rcases List.get?_eq_some.mp h with ⟨hl, -⟩
  exact hl

theorem contrib_le_running (s : GState) (i : Nat) (p : Phase)
    (h : s.threads.get? i = some p) : runningContrib p ≤ running s :=
  List.le_sum_of_mem (List.mem_map_of_mem runningContrib (List.get?_mem h))

theorem sum_map_set (l : List Phase) (i : Nat) (p q : Phase) (h : l.get? i = some p) :
    ((l.set i q).map runningContrib).sum + runningContrib p
      = (l.map runningContrib).sum + runningContrib q := by
  induction l generalizing i with
  | nil => cases h
  | cons a l ih =>
    cases i with
    | zero =>
      cases h
      simp only [List.set, List.map, List.sum_cons]
      omega
    | succ n =>
      have h' : l.get? n = some p := h
      have := ih n h'
      simp only [List.set, List.map, List.sum_cons]
      omega

theorem get?_append_single {α : Type} {l : List α} {a : α} {j : Nat} {b : α}
    (h : (l ++ [a]).get? j = some b) : l.get? j = some b ∨ (j = l.length ∧ b = a) := by
  by_cases hj : j < l.length
  · rw [List.get?_append hj] at h
    exact Or.inl h
  · by_cases hj2 : j = l.length
    · subst hj2
      rw [List.get?_concat_length] at h
      exact Or.inr ⟨rfl, (Option.some.inj h).symm⟩
    · have hle : (l ++ [a]).length ≤ j := by
        simp only [List.length_append, List.length_cons, List.length_nil]
        omega
      rw [List.get?_eq_none.mpr hle] at h
      cases h

/-- One atomic step, characterized: `stepThread s i = some s'` holds
exactly through one of these sixteen transitions (named after the
source line each models). -/
inductive StepSpec (s : GState) (i : Nat) : GState → Prop where
  | lockS (o : Outcome) (d : Nat)
      (hget : s.threads.get? i = some (Phase.sEnter o d)) (hl : s.lock = none) :
      StepSpec s i { s with lock := some i, threads := s.threads.set i (Phase.sWaiting o d) }
  | grant (o : Outcome) (d : Nat)
      (hget : s.threads.get? i = some (Phase.sWaiting o d)) (hl : s.lock = some i)
      (hlt : s.countJobs < s.maxJobsAllowed) :
      StepSpec s i { s with threads := s.threads.set i (Phase.sInc o d) }
  | blockS (o : Outcome) (d : Nat)
      (hget : s.threads.get? i = some (Phase.sWaiting o d)) (hl : s.lock = some i)
      (hge : ¬ s.countJobs < s.maxJobsAllowed) :
      StepSpec s i { s with lock := none, threads := s.threads.set i (Phase.sBlocked o d) }
  | wakeS (o : Outcome) (d : Nat)
      (hget : s.threads.get? i = some (Phase.sBlocked o d)) (hl : s.lock = none) :
      StepSpec s i { s with lock := some i, threads := s.threads.set i (Phase.sWaiting o d) }
  | incr (o : Outcome) (d : Nat)
      (hget : s.threads.get? i = some (Phase.sInc o d)) (hl : s.lock = some i) :
      StepSpec s i { s with countJobs := s.countJobs + 1,
                            threads := s.threads.set i (Phase.sSpawn o d) }
  | spawn (o : Outcome) (d : Nat)
      (hget : s.threads.get? i = some (Phase.sSpawn o d)) (hl : s.lock = some i) :
      StepSpec s i { s with threads := (s.threads.set i Phase.sRet) ++ [Phase.jSleep o d] }
  | retS (hget : s.threads.get? i = some Phase.sRet) (hl : s.lock = some i) :
      StepSpec s i { s with lock := none, threads := s.threads.set i Phase.sDone }
  | sleep (o : Outcome) (d : Nat)
      (hget : s.threads.get? i = some (Phase.jSleep o d)) :
      StepSpec s i { s with threads := s.threads.set i (Phase.jRun o) }
  | exec (o : Outcome) (hget : s.threads.get? i = some (Phase.jRun o)) :
      StepSpec s i { s with errLog := s.errLog ++ jobWrapper o,
                            threads := s.threads.set i Phase.jNotify }
  | signal (hget : s.threads.get? i = some Phase.jNotify) :
      StepSpec s i { s with threads := s.threads.set i Phase.jDec }
  | decr (hget : s.threads.get? i = some Phase.jDec) :
      StepSpec s i { s with countJobs := s.countJobs - 1,
                            threads := s.threads.set i Phase.jDone }
  | lockW (hget : s.threads.get? i = some Phase.wEnter) (hl : s.lock = none) :
      StepSpec s i { s with lock := some i, threads := s.threads.set i Phase.wWaiting }
  | seeZero (hget : s.threads.get? i = some Phase.wWaiting) (hl : s.lock = some i)
      (hz : s.countJobs = 0) :
      StepSpec s i { s with threads := s.threads.set i Phase.wRet }
  | blockW (hget : s.threads.get? i = some Phase.wWaiting) (hl : s.lock = some i)
      (hnz : ¬ s.countJobs = 0) :
      StepSpec s i { s with lock := none, threads := s.threads.set i Phase.wBlocked }
  | wakeW (hget : s.threads.get? i = some Phase.wBlocked) (hl : s.lock = none) :
      StepSpec s i { s with lock := some i, threads := s.threads.set i Phase.wWaiting }
  | retW (hget : s.threads.get? i = some Phase.wRet) (hl : s.lock = some i) :
      StepSpec s i { s with lock := none, threads := s.threads.set i Phase.wDone }

theorem step_spec (s : GState) (i : Nat) (s' : GState) (h : stepThread s i = some s') :
    StepSpec s i s' := by
  cases hget : s.threads.get? i with
  | none =>
    simp only [stepThread, hget] at h
    cases h
  | some p =>
    cases p with
    | sEnter o d =>
      simp only [stepThread, hget] at h
      by_cases hl : s.lock = none
      · rw [if_pos hl] at h
        exact (Option.some.inj h) ▸ StepSpec.lockS o d hget hl
      · rw [if_neg hl] at h
        cases h
    | sWaiting o d =>
      simp only [stepThread, hget] at h
      by_cases hl : s.lock = some i
      · rw [if_pos hl] at h
        by_cases hlt : s.countJobs < s.maxJobsAllowed
        · rw [if_pos hlt] at h
          exact (Option.some.inj h) ▸ StepSpec.grant o d hget hl hlt
        · rw [if_neg hlt] at h
          exact (Option.some.inj h) ▸ StepSpec.blockS o d hget hl hlt
      · rw [if_neg hl] at h
        cases h
    | sBlocked o d =>
      simp only [stepThread, hget] at h
      by_cases hl : s.lock = none
      · rw [if_pos hl] at h
        exact (Option.some.inj h) ▸ StepSpec.wakeS o d hget hl
      · rw [if_neg hl] at h
        cases h
    | sInc o d =>
      simp only [stepThread, hget] at h
      by_cases hl : s.lock = some i
      · rw [if_pos hl] at h
        exact (Option.some.inj h) ▸ StepSpec.incr o d hget hl
      · rw [if_neg hl] at h
        cases h
    | sSpawn o d =>
      simp only [stepThread, hget] at h
      by_cases hl : s.lock = some i
      · rw [if_pos hl] at h
        exact (Option.some.inj h) ▸ StepSpec.spawn o d hget hl
      · rw [if_neg hl] at h
        cases h
    | sRet =>
      simp only [stepThread, hget] at h
      by_cases hl : s.lock = some i
      · rw [if_pos hl] at h
        exact (Option.some.inj h) ▸ StepSpec.retS hget hl
      · rw [if_neg hl] at h
        cases h
    | sDone =>
      simp only [stepThread, hget] at h
      cases h
    | jSleep o d =>
      simp only [stepThread, hget] at h
      exact (Option.some.inj h) ▸ StepSpec.sleep o d hget
    | jRun o =>
      simp only [stepThread, hget] at h
      exact (Option.some.inj h) ▸ StepSpec.exec o hget
    | jNotify =>
      simp only [stepThread, hget] at h
      exact (Option.some.inj h) ▸ StepSpec.signal hget
    | jDec =>
      simp only [stepThread, hget] at h
      exact (Option.some.inj h) ▸ StepSpec.decr hget
    | jDone =>
      simp only [stepThread, hget] at h
      cases h
    | wEnter =>
      simp only [stepThread, hget] at h
      by_cases hl : s.lock = none
      · rw [if_pos hl] at h
        exact (Option.some.inj h) ▸ StepSpec.lockW hget hl
      · rw [if_neg hl] at h
        cases h
    | wWaiting =>
      simp only [stepThread, hget] at h
      by_cases hl : s.lock = some i
      · rw [if_pos hl] at h
        by_cases hz : s.countJobs = 0
        · rw [if_pos hz] at h
          exact (Option.some.inj h) ▸ StepSpec.seeZero hget hl hz
        · rw [if_neg hz] at h
          exact (Option.some.inj h) ▸ StepSpec.blockW hget hl hz
      · rw [if_neg hl] at h
        cases h
    | wBlocked =>
      simp only [stepThread, hget] at h
      by_cases hl : s.lock = none
      · rw [if_pos hl] at h
        exact (Option.some.inj h) ▸ StepSpec.wakeW hget hl
      · rw [if_neg hl] at h
        cases h
    | wRet =>
      simp only [stepThread, hget] at h
      by_cases hl : s.lock = some i
      · rw [if_pos hl] at h
        exact (Option.some.inj h) ▸ StepSpec.retW hget hl
      · rw [if_neg hl] at h
        cases h
    | wDone =>
      simp only [stepThread, hget] at h
      cases h

theorem get?_set_cases {α : Type} {l : List α} {i j : Nat} {a b : α}
    (h : (l.set i a).get? j = some b) : (i = j ∧ b = a) ∨ (i ≠ j ∧ l.get? j = some b) := by
  by_cases hij : i = j
  · subst hij
    have hlen : i < l.length := by
      have := lt_length_of_get? h
      rwa [List.length_set] at this
    rw [List.get?_set_eq_of_lt a hlen] at h
    exact Or.inl ⟨rfl, (Option.some.inj h).symm⟩
  · rw [List.get?_set_ne _ _ hij] at h
    exact Or.inr ⟨hij, h⟩

theorem lock_phase_acquire (s : GState) (hInv : Inv s) (i : Nat) (q : Phase)
    (hl : s.lock = none) :
    ∀ j p, (s.threads.set i q).get? j = some p → lockNeeded p = true →
      (some i : Option Nat) = some j := by
  intro j p hj hlp
  rcases get?_set_cases hj with ⟨hij, -⟩ | ⟨-, hj2⟩
  · exact congrArg some hij
  · have h2 := hInv.lock_phase j p hj2 hlp
    rw [hl] at h2
    exact Option.noConfusion h2

theorem lock_phase_keep (s : GState) (hInv : Inv s) (i : Nat) (q : Phase)
    (hl : s.lock = some i) :
    ∀ j p, (s.threads.set i q).get? j = some p → lockNeeded p = true →
      s.lock = some j := by
  intro j p hj hlp
  rcases get?_set_cases hj with ⟨hij, -⟩ | ⟨-, hj2⟩
  · rw [← hij]
    exact hl
  · exact hInv.lock_phase j p hj2 hlp

theorem lock_phase_release (s : GState) (hInv : Inv s) (i : Nat) (q : Phase)
    (hq : lockNeeded q = false) (hl : s.lock = some i) :
    ∀ j p, (s.threads.set i q).get? j = some p → lockNeeded p = true →
      (none : Option Nat) = some j := by
  intro j p hj hlp
  rcases get?_set_cases hj with ⟨hij, heq⟩ | ⟨hij, hj2⟩
  · rw [heq, hq] at hlp
    exact Bool.noConfusion hlp
  · have h2 := hInv.lock_phase j p hj2 hlp
    rw [hl] at h2
    exact absurd (Option.some.inj h2) hij

theorem lock_phase_free (s : GState) (hInv : Inv s) (i : Nat) (q : Phase)
    (hq : lockNeeded q = false) :
    ∀ j p, (s.threads.set i q).get? j = some p → lockNeeded p = true →
      s.lock = some j := by
  intro j p hj hlp
  rcases get?_set_cases hj with ⟨hij, heq⟩ | ⟨-, hj2⟩
  · rw [heq, hq] at hlp
    exact Bool.noConfusion hlp
  · exact hInv.lock_phase j p hj2 hlp

theorem count_run_set (s : GState) (hInv : Inv s) (i : Nat) (p q : Phase)
    (hget : s.threads.get? i = some p) (hc : runningContrib p = runningContrib q) :
    s.countJobs = ((s.threads.set i q).map runningContrib).sum := by
  have hsum := sum_map_set s.threads i p q hget
  have hcr := hInv.count_run
  simp only [running] at hcr
  omega

/-- Preservation: every atomic step of any thread keeps the invariant. -/
theorem inv_step (s s' : GState) (i : Nat) (hInv : Inv s) (h : stepThread s i = some s') :
    Inv s' := by
  cases step_spec s i s' h with
  | lockS o d hget hl =>
    refine ⟨lock_phase_acquire s hInv i _ hl, ?_, ?_, ?_, hInv.count_le⟩
    · intro j o' d' hj
      rcases get?_set_cases hj with ⟨-, heq⟩ | ⟨-, hj2⟩
      · exact Phase.noConfusion heq
      · exact hInv.inc_lt j o' d' hj2
    · intro j hj
      rcases get?_set_cases hj with ⟨-, heq⟩ | ⟨-, hj2⟩
      · exact Phase.noConfusion heq
      · exact hInv.wret_zero j hj2
    · exact count_run_set s hInv i _ _ hget rfl
  | grant o d hget hl hlt =>
    refine ⟨lock_phase_keep s hInv i _ hl, ?_, ?_, ?_, hInv.count_le⟩
    · intro j o' d' hj
      rcases get?_set_cases hj with ⟨-, -⟩ | ⟨-, hj2⟩
      · exact hlt
      · exact hInv.inc_lt j o' d' hj2
    · intro j hj
      rcases get?_set_cases hj with ⟨-, heq⟩ | ⟨-, hj2⟩
      · exact Phase.noConfusion heq
      · exact hInv.wret_zero j hj2
    · exact count_run_set s hInv i _ _ hget rfl
  | blockS o d hget hl hge =>
    refine ⟨lock_phase_release s hInv i _ rfl hl, ?_, ?_, ?_, hInv.count_le⟩
    · intro j o' d' hj
      rcases get?_set_cases hj with ⟨-, heq⟩ | ⟨-, hj2⟩
      · exact Phase.noConfusion heq
      · exact hInv.inc_lt j o' d' hj2
    · intro j hj
      rcases get?_set_cases hj with ⟨-, heq⟩ | ⟨-, hj2⟩
      · exact Phase.noConfusion heq
      · exact hInv.wret_zero j hj2
    · exact count_run_set s hInv i _ _ hget rfl
  | wakeS o d hget hl =>
    refine ⟨lock_phase_acquire s hInv i _ hl, ?_, ?_, ?_, hInv.count_le⟩
    · intro j o' d' hj
      rcases get?_set_cases hj with ⟨-, heq⟩ | ⟨-, hj2⟩
      · exact Phase.noConfusion heq
      · exact hInv.inc_lt j o' d' hj2
    · intro j hj
      rcases get?_set_cases hj with ⟨-, heq⟩ | ⟨-, hj2⟩
      · exact Phase.noConfusion heq
      · exact hInv.wret_zero j hj2
    · exact count_run_set s hInv i _ _ hget rfl
  | incr o d hget hl =>
    refine ⟨lock_phase_keep s hInv i _ hl, ?_, ?_, ?_, ?_⟩
    · intro j o' d' hj
      rcases get?_set_cases hj with ⟨-, heq⟩ | ⟨hij, hj2⟩
      · exact Phase.noConfusion heq
      · have h2 := hInv.lock_phase j _ hj2 rfl
        rw [hl] at h2
        exact absurd (Option.some.inj h2) hij
    · intro j hj
      rcases get?_set_cases hj with ⟨-, heq⟩ | ⟨hij, hj2⟩
      · exact Phase.noConfusion heq
      · have h2 := hInv.lock_phase j _ hj2 rfl
        rw [hl] at h2
        exact absurd (Option.some.inj h2) hij
    · have hsum := sum_map_set s.threads i (Phase.sInc o d) (Phase.sSpawn o d) hget
      have hcr := hInv.count_run
      simp only [running] at hcr
      simp only [runningContrib] at hsum
      show s.countJobs + 1 = ((s.threads.set i (Phase.sSpawn o d)).map runningContrib).sum
      omega
    · have := hInv.inc_lt i o d hget
      show s.countJobs + 1 ≤ s.maxJobsAllowed
      omega
  | spawn o d hget hl =>
    refine ⟨?_, ?_, ?_, ?_, hInv.count_le⟩
    · intro j p hj hlp
      rcases get?_append_single hj with hj2 | ⟨-, heq⟩
      · rcases get?_set_cases hj2 with ⟨hij, -⟩ | ⟨-, hj3⟩
        · rw [← hij]
          exact hl
        · exact hInv.lock_phase j p hj3 hlp
      · rw [heq] at hlp
        exact Bool.noConfusion hlp
    · intro j o' d' hj
      rcases get?_append_single hj with hj2 | ⟨-, heq⟩
      · rcases get?_set_cases hj2 with ⟨-, heq⟩ | ⟨-, hj3⟩
        · exact Phase.noConfusion heq
        · exact hInv.inc_lt j o' d' hj3
      · exact Phase.noConfusion heq
    · intro j hj
      rcases get?_append_single hj with hj2 | ⟨-, heq⟩
      · rcases get?_set_cases hj2 with ⟨-, heq⟩ | ⟨-, hj3⟩
        · exact Phase.noConfusion heq
        · exact hInv.wret_zero j hj3
      · exact Phase.noConfusion heq
    · have hsum := sum_map_set s.threads i (Phase.sSpawn o d) Phase.sRet hget
      have hcr := hInv.count_run
      simp only [running] at hcr
      simp only [runningContrib] at hsum
      show s.countJobs
        = (((s.threads.set i Phase.sRet) ++ [Phase.jSleep o d]).map runningContrib).sum
      simp only [List.map_append, List.sum_append, List.map, List.sum_cons,
        List.sum_nil, runningContrib]
      omega
  | retS hget hl =>
    refine ⟨lock_phase_release s hInv i _ rfl hl, ?_, ?_, ?_, hInv.count_le⟩
    · intro j o' d' hj
      rcases get?_set_cases hj with ⟨-, heq⟩ | ⟨-, hj2⟩
      · exact Phase.noConfusion heq
      · exact hInv.inc_lt j o' d' hj2
    · intro j hj
      rcases get?_set_cases hj with ⟨-, heq⟩ | ⟨-, hj2⟩
      · exact Phase.noConfusion heq
      · exact hInv.wret_zero j hj2
    · exact count_run_set s hInv i _ _ hget rfl
  | sleep o d hget =>
    refine ⟨lock_phase_free s hInv i _ rfl, ?_, ?_, ?_, hInv.count_le⟩
    · intro j o' d' hj
      rcases get?_set_cases hj with ⟨-, heq⟩ | ⟨-, hj2⟩
      · exact Phase.noConfusion heq
      · exact hInv.inc_lt j o' d' hj2
    · intro j hj
      rcases get?_set_cases hj with ⟨-, heq⟩ | ⟨-, hj2⟩
      · exact Phase.noConfusion heq
      · exact hInv.wret_zero j hj2
    · exact count_run_set s hInv i _ _ hget rfl
  | exec o hget =>
    refine ⟨lock_phase_free s hInv i _ rfl, ?_, ?_, ?_, hInv.count_le⟩
    · intro j o' d' hj
      rcases get?_set_cases hj with ⟨-, heq⟩ | ⟨-, hj2⟩
      · exact Phase.noConfusion heq
      · exact hInv.inc_lt j o' d' hj2
    · intro j hj
      rcases get?_set_cases hj with ⟨-, heq⟩ | ⟨-, hj2⟩
      · exact Phase.noConfusion heq
      · exact hInv.wret_zero j hj2
    · exact count_run_set s hInv i _ _ hget rfl
  | signal hget =>
    refine ⟨lock_phase_free s hInv i _ rfl, ?_, ?_, ?_, hInv.count_le⟩
    · intro j o' d' hj
      rcases get?_set_cases hj with ⟨-, heq⟩ | ⟨-, hj2⟩
      · exact Phase.noConfusion heq
      · exact hInv.inc_lt j o' d' hj2
    · intro j hj
      rcases get?_set_cases hj with ⟨-, heq⟩ | ⟨-, hj2⟩
      · exact Phase.noConfusion heq
      · exact hInv.wret_zero j hj2
    · exact count_run_set s hInv i _ _ hget rfl
  | decr hget =>
    refine ⟨lock_phase_free s hInv i _ rfl, ?_, ?_, ?_, ?_⟩
    · intro j o' d' hj
      rcases get?_set_cases hj with ⟨-, heq⟩ | ⟨-, hj2⟩
      · exact Phase.noConfusion heq
      · have := hInv.inc_lt j o' d' hj2
        show s.countJobs - 1 < s.maxJobsAllowed
        omega
    · intro j hj
      rcases get?_set_cases hj with ⟨-, heq⟩ | ⟨-, hj2⟩
      · exact Phase.noConfusion heq
      · have := hInv.wret_zero j hj2
        show s.countJobs - 1 = 0
        omega
    · have hsum := sum_map_set s.threads i Phase.jDec Phase.jDone hget
      have hcr := hInv.count_run
      simp only [running] at hcr
      simp only [runningContrib] at hsum
      show s.countJobs - 1 = ((s.threads.set i Phase.jDone).map runningContrib).sum
      omega
    · have := hInv.count_le
      show s.countJobs - 1 ≤ s.maxJobsAllowed
      omega
  | lockW hget hl =>
    refine ⟨lock_phase_acquire s hInv i _ hl, ?_, ?_, ?_, hInv.count_le⟩
    · intro j o' d' hj
      rcases get?_set_cases hj with ⟨-, heq⟩ | ⟨-, hj2⟩
      · exact Phase.noConfusion heq
      · exact hInv.inc_lt j o' d' hj2
    · intro j hj
      rcases get?_set_cases hj with ⟨-, heq⟩ | ⟨-, hj2⟩
      · exact Phase.noConfusion heq
      · exact hInv.wret_zero j hj2
    · exact count_run_set s hInv i _ _ hget rfl
  | seeZero hget hl hz =>
    refine ⟨lock_phase_keep s hInv i _ hl, ?_, ?_, ?_, hInv.count_le⟩
    · intro j o' d' hj
      rcases get?_set_cases hj with ⟨-, heq⟩ | ⟨-, hj2⟩
      · exact Phase.noConfusion heq
      · exact hInv.inc_lt j o' d' hj2
    · intro j hj
      exact hz
    · exact count_run_set s hInv i _ _ hget rfl
  | blockW hget hl hnz =>
    refine ⟨lock_phase_release s hInv i _ rfl hl, ?_, ?_, ?_, hInv.count_le⟩
    · intro j o' d' hj
      rcases get?_set_cases hj with ⟨-, heq⟩ | ⟨-, hj2⟩
      · exact Phase.noConfusion heq
      · exact hInv.inc_lt j o' d' hj2
    · intro j hj
      rcases get?_set_cases hj with ⟨-, heq⟩ | ⟨-, hj2⟩
      · exact Phase.noConfusion heq
      · exact hInv.wret_zero j hj2
    · exact count_run_set s hInv i _ _ hget rfl
  | wakeW hget hl =>
    refine ⟨lock_phase_acquire s hInv i _ hl, ?_, ?_, ?_, hInv.count_le⟩
    · intro j o' d' hj
      rcases get?_set_cases hj with ⟨-, heq⟩ | ⟨-, hj2⟩
      · exact Phase.noConfusion heq
      · exact hInv.inc_lt j o' d' hj2
    · intro j hj
      rcases get?_set_cases hj with ⟨-, heq⟩ | ⟨-, hj2⟩
      · exact Phase.noConfusion heq
      · exact hInv.wret_zero j hj2
    · exact count_run_set s hInv i _ _ hget rfl
  | retW hget hl =>
    refine ⟨lock_phase_release s hInv i _ rfl hl, ?_, ?_, ?_, hInv.count_le⟩
    · intro j o' d' hj
      rcases get?_set_cases hj with ⟨-, heq⟩ | ⟨-, hj2⟩
      · exact Phase.noConfusion heq
      · exact hInv.inc_lt j o' d' hj2
    · intro j hj
      rcases get?_set_cases hj with ⟨-, heq⟩ | ⟨-, hj2⟩
      · exact Phase.noConfusion heq
      · exact hInv.wret_zero j hj2
    · exact count_run_set s hInv i _ _ hget rfl

/-- The start state carries no admitted execution. -/
theorem running_start (cap : Nat) (ts : List InitThread) :
    running (startState cap ts) = 0 := by
  induction ts with
  | nil => rfl
  | cons a ts ih =>
    simp only [running, startState, List.map, List.sum_cons] at ih ⊢
    cases a <;> simp only [initPhase, runningContrib] <;> omega

/-- The invariant holds at the start state. -/
theorem inv_start (cap : Nat) (ts : List InitThread) : Inv (startState cap ts) := by
  refine ⟨?_, ?_, ?_, ?_, Nat.zero_le cap⟩
  · intro j p hj hlp
    rw [show (startState cap ts).threads = ts.map initPhase from rfl, List.get?_map] at hj
    cases hts : ts.get? j with
    | none => rw [hts] at hj; cases hj
    | some t =>
      rw [hts] at hj
      have hp : initPhase t = p := Option.some.inj hj
      cases t <;> rw [← hp] at hlp <;> simp only [initPhase, lockNeeded] at hlp <;>
        exact Bool.noConfusion hlp
  · intro j o d hj
    rw [show (startState cap ts).threads = ts.map initPhase from rfl, List.get?_map] at hj
    cases hts : ts.get? j with
    | none => rw [hts] at hj; cases hj
    | some t =>
      rw [hts] at hj
      have hp : initPhase t = Phase.sInc o d := Option.some.inj hj
      cases t <;> simp only [initPhase] at hp <;> exact Phase.noConfusion hp
  · intro j hj
    rw [show (startState cap ts).threads = ts.map initPhase from rfl, List.get?_map] at hj
    cases hts : ts.get? j with
    | none => rw [hts] at hj; cases hj
    | some t =>
      rw [hts] at hj
      have hp : initPhase t = Phase.wRet := Option.some.inj hj
      cases t <;> simp only [initPhase] at hp <;> exact Phase.noConfusion hp
  · rw [running_start]
    rfl

/-- The invariant holds at every reachable state. -/
theorem inv_run (tr : List Nat) : ∀ s t : GState, Inv s → run s tr = some t → Inv t := by
  induction tr with
  | nil =>
    intro s t hInv h
    cases h
    exact hInv
  | cons i tr ih =>
    intro s t hInv h
    cases hst : stepThread s i with
    | none =>
      simp only [run, hst] at h
      exact Option.noConfusion h
    | some u =>
      simp only [run, hst] at h
      exact ih u t (inv_step s u i hInv hst) h

/-- A step never changes the capacity. -/
theorem step_max (s s' : GState) (i : Nat) (h : stepThread s i = some s') :
    s'.maxJobsAllowed = s.maxJobsAllowed := by
  cases step_spec s i s' h <;> rfl

/-- The capacity is immutable along every execution. -/
theorem run_max (tr : List Nat) : ∀ s t : GState, run s tr = some t →
    t.maxJobsAllowed = s.maxJobsAllowed := by
  induction tr with
  | nil =>
    intro s t h
    cases h
    rfl
  | cons i tr ih =>
    intro s t h
    cases hst : stepThread s i with
    | none =>
      simp only [run, hst] at h
      exact Option.noConfusion h
    | some u =>
      simp only [run, hst] at h
      rw [ih u t h, step_max s u i hst]

/-- How one step changes the counter: it stays, it grows by exactly
one through the guarded increment of line 49 (possible only when
`countJobs < maxJobsAllowed`), or it shrinks by one through the
decrement of line 78.  Nothing clamps it. -/
theorem step_count (s s' : GState) (i : Nat) (hInv : Inv s)
    (h : stepThread s i = some s') :
    s'.countJobs = s.countJobs
  ∨ (s.countJobs < s.maxJobsAllowed ∧ s'.countJobs = s.countJobs + 1)
  ∨ s'.countJobs = s.countJobs - 1 := by
  cases step_spec s i s' h
  case incr o d hget hl => exact Or.inr (Or.inl ⟨hInv.inc_lt i o d hget, rfl⟩)
  case decr hget => exact Or.inr (Or.inr rfl)
  all_goals exact Or.inl rfl

/-- How one step changes the thread list: it rewrites the phase of
the acting thread (reaching `jRun` only from the same job's `jSleep`),
or — at the spawn of lines 58–80 — additionally appends one new job
thread, which starts at `jSleep`. -/
theorem step_threads (s s' : GState) (i : Nat) (h : stepThread s i = some s') :
    (∃ q, s'.threads = s.threads.set i q
      ∧ ∀ o, q = Phase.jRun o → ∃ d, s.threads.get? i = some (Phase.jSleep o d))
  ∨ (∃ o d, s.threads.get? i = some (Phase.sSpawn o d)
      ∧ s'.threads = (s.threads.set i Phase.sRet) ++ [Phase.jSleep o d]) := by
  cases step_spec s i s' h
  case sleep o d hget =>
    refine Or.inl ⟨Phase.jRun o, rfl, fun o0 ho => ?_⟩
    cases ho
    exact ⟨d, hget⟩
  case spawn o d hget hl => exact Or.inr ⟨o, d, hget, rfl⟩
  all_goals exact Or.inl ⟨_, rfl, fun o0 ho => Phase.noConfusion ho⟩

/-- Sample failure message used by the concrete example states. -/
def diskFullMsg : String := "disk full"

/-- The empty failure message (a thrown `std::runtime_error("")` has
this as its `what()`). -/
def emptyMsg : String := ""

/-- Reachable state of a capacity-2 scheduler after one `schedule`
caller has been admitted and incremented the counter, with a `wait`
caller not yet started (trace `[0, 0, 0]` from
`startState 2 [sched success 1, waiter]`). -/
def exampleAdmitted : GState :=
  { maxJobsAllowed := 2, countJobs := 1, lock := some 0,
    threads := [Phase.sSpawn Outcome.success 1, Phase.wEnter], errLog := [] }

/-- Reachable state of a capacity-2 scheduler whose single `wait`
caller has observed `countJobs == 0` and is about to return (trace
`[0, 0]` from `startState 2 [waiter]`). -/
def exampleWaitReturn : GState :=
  { maxJobsAllowed := 2, countJobs := 0, lock := some 0,
    threads := [Phase.wRet], errLog := [] }

/-- Reachable state of a capacity-0 scheduler whose single `schedule`
caller holds the mutex and is about to test the admission predicate
(trace `[0]` from `startState 0 [sched success 4]`). -/
def exampleZeroCap : GState :=
  { maxJobsAllowed := 0, countJobs := 0, lock := some 0,
    threads := [Phase.sWaiting Outcome.success 4], errLog := [] }

/-- A state whose single `schedule` caller holds the mutex at the
admission test, with a free slot. -/
def exampleWaiting : GState :=
  { maxJobsAllowed := 1, countJobs := 0, lock := some 0,
    threads := [Phase.sWaiting (Outcome.exn diskFullMsg) 3], errLog := [] }

/-- A state whose single spawned job thread is inside its delay
(`sleep_for`, line 62); its body will throw. -/
def exampleSleep : GState :=
  { maxJobsAllowed := 1, countJobs := 1, lock := none,
    threads := [Phase.jSleep (Outcome.exn diskFullMsg) 5], errLog := [] }

/-- `exampleSleep` after the delay elapsed: the job thread is about
to run its body. -/
def exampleRun : GState :=
  { maxJobsAllowed := 1, countJobs := 1, lock := none,
    threads := [Phase.jRun (Outcome.exn diskFullMsg)], errLog := [] }

/-- C1: for every execution of the Scheduler, the in-flight counter
satisfies `0 ≤ countJobs ≤ capacity` at every observation point (the
lower bound holds by the `Nat` type, mirroring `size_t`); the bound
comes from the admission wait and not from clamping: the only step
that ever increases the counter is the increment of line 49, it fires
only when `countJobs < capacity` was observed under the mutex, and it
raises the counter by exactly one. -/
theorem inflight_never_exceeds_capacity (cap : Nat) (ts : List InitThread)
    (tr : List Nat) (s : GState) (h : run (startState cap ts) tr = some s) :
    s.countJobs ≤ cap
  ∧ ∀ i s', stepThread s i = some s' → s.countJobs < s'.countJobs →
      s.countJobs < cap ∧ s'.countJobs = s.countJobs + 1 := by
  have hInv : Inv s := inv_run tr (startState cap ts) s (inv_start cap ts) h
  have hmax : s.maxJobsAllowed = cap := run_max tr (startState cap ts) s h
  constructor
  · rw [← hmax]
    exact hInv.count_le
  · intro i s' hstep hlt
    rcases step_count s s' i hInv hstep with h1 | ⟨h2a, h2b⟩ | h3
    · omega
    · exact ⟨hmax ▸ h2a, h2b⟩
    · omega

/-- C1 witness: in the reachable state `exampleAdmitted` of a
capacity-2 scheduler the counter is within the bound. -/
theorem inflight_never_exceeds_capacity_witness :
    exampleAdmitted.countJobs ≤ 2 :=
  (inflight_never_exceeds_capacity 2
    [InitThread.sched Outcome.success 1, InitThread.waiter]
    [0, 0, 0] exampleAdmitted (by decide)).1

/-- Thread schedule driving one successful job of a capacity-1
scheduler from submission to just before its decrement: the
`schedule` caller runs to completion (acquire, pass the admission
test, increment, spawn, return), then the spawned thread sleeps, runs
its body and executes `notify_one`. -/
def c2trace : List Nat := [0, 0, 0, 0, 0, 1, 1, 1]

/-- C2 is false of the code: after `c2trace` the mutex is held by no
thread (`lock = none`), the spawned thread stands at the decrement of
line 78 and `countJobs = 1`; one more step of that thread mutates
`countJobs` to 0 with the mutex still free — so the decrement is not
performed under the lock (and the `notify_one` of line 77 has already
happened, before the decrement rather than after it). -/
theorem countJobs_decremented_without_lock :
    (Option.map (fun s => (s.lock, s.countJobs, s.threads.get? 1))
        (run (startState 1 [InitThread.sched Outcome.success 7]) c2trace)
      = some (none, 1, some Phase.jDec))
  ∧ (Option.map (fun s => (s.lock, s.countJobs))
        (run (startState 1 [InitThread.sched Outcome.success 7]) (c2trace ++ [1]))
      = some (none, 0)) := by
  exact ⟨rfl, rfl⟩

/-- C3 counterexample: a job body that throws a `std::exception`
whose `what()` message is empty is reported exactly once, but with an
EMPTY description — the wrapper forwards the exception's own message
unchanged (line 70) and normalizes nothing for recognized kinds, so
"reported … with a non-empty description" fails at this input. -/
theorem job_failure_empty_description_cex :
    jobWrapper (Outcome.exn emptyMsg) = [emptyMsg] ∧ emptyMsg.length = 0 :=
  ⟨rfl, rfl⟩

/-- C3 (amended): any failure raised by a job's operation — of any
kind, an unrecognized kind being normalized to the generic non-empty
description "Unknown" — is caught by the per-job wrapper and reported
to the error callback exactly once; for a recognized exception the
description is the exception's own message, which the scheduler does
not guarantee non-empty.  The failure never propagates: the wrapper
step always succeeds, appends exactly the one report to the log and
lets the spawned thread continue. -/
theorem job_failure_isolated_reported_once (o : Outcome) (h : o ≠ Outcome.success) :
    (jobWrapper o).length = 1
  ∧ (o = Outcome.unknown →
      jobWrapper o = ["Unknown"] ∧ ("Unknown" : String).length ≠ 0)
  ∧ (∀ s : GState, ∀ i : Nat, s.threads.get? i = some (Phase.jRun o) →
      stepThread s i = some { s with
        errLog := s.errLog ++ jobWrapper o,
        threads := s.threads.set i Phase.jNotify }) := by
  refine ⟨?_, ?_, ?_⟩
  · cases o with
    | success => exact absurd rfl h
    | exn msg => rfl
    | unknown => rfl
  · intro ho
    subst ho
    exact ⟨rfl, by decide⟩
  · intro s i hget
    simp only [stepThread, hget]

/-- C3 witness: an unrecognized failure is reported exactly once. -/
theorem job_failure_isolated_reported_once_witness :
    (jobWrapper Outcome.unknown).length = 1 :=
  (job_failure_isolated_reported_once Outcome.unknown (by decide)).1

/-- C4: in every reachable state, a thread at the return point of
`wait` observed `countJobs = 0` and the counter still is 0 at that
instant; a step of a thread inside `wait`'s condition test reaches
the return point exactly when `countJobs = 0` (there is no timeout
and no failure path — otherwise the thread re-blocks); and when
`countJobs = 0` the waiting thread's step to the return point is
enabled, so a further `wait` with no new submissions goes straight
through. -/
theorem wait_returns_only_at_zero (cap : Nat) (ts : List InitThread)
    (tr : List Nat) (s : GState) (h : run (startState cap ts) tr = some s) :
    (∀ i, s.threads.get? i = some Phase.wRet → s.countJobs = 0)
  ∧ (∀ i s', s.threads.get? i = some Phase.wWaiting → stepThread s i = some s' →
      (s'.threads.get? i = some Phase.wRet ↔ s.countJobs = 0))
  ∧ (∀ i, s.threads.get? i = some Phase.wWaiting → s.countJobs = 0 →
      stepThread s i = some { s with threads := s.threads.set i Phase.wRet }) := by
  have hInv : Inv s := inv_run tr (startState cap ts) s (inv_start cap ts) h
  refine ⟨hInv.wret_zero, ?_, ?_⟩
  · intro i s' hw hstep
    have hl : s.lock = some i := hInv.lock_phase i Phase.wWaiting hw rfl
    have hlen : i < s.threads.length := lt_length_of_get? hw
    by_cases hz : s.countJobs = 0
    · have hstep2 : stepThread s i = some { s with threads := s.threads.set i Phase.wRet } := by
        simp only [stepThread, hw]
        rw [if_pos hl, if_pos hz]
      rw [hstep2] at hstep
      have hs' := (Option.some.inj hstep).symm
      subst hs'
      constructor
      · intro _
        exact hz
      · intro _
        show (s.threads.set i Phase.wRet).get? i = some Phase.wRet
        exact List.get?_set_eq_of_lt Phase.wRet hlen
    · have hstep2 : stepThread s i
          = some { s with lock := none, threads := s.threads.set i Phase.wBlocked } := by
        simp only [stepThread, hw]
        rw [if_pos hl, if_neg hz]
      rw [hstep2] at hstep
      have hs' := (Option.some.inj hstep).symm
      subst hs'
      constructor
      · intro hret
        have : (s.threads.set i Phase.wBlocked).get? i = some Phase.wBlocked :=
          List.get?_set_eq_of_lt Phase.wBlocked hlen
        rw [this] at hret
        exact Phase.noConfusion (Option.some.inj hret)
      · intro hz2
        exact absurd hz2 hz
  · intro i hw hz
    have hl : s.lock = some i := hInv.lock_phase i Phase.wWaiting hw rfl
    simp only [stepThread, hw]
    rw [if_pos hl, if_pos hz]

/-- C4 witness: in the reachable state `exampleWaitReturn` the `wait`
caller stands at its return point and the counter it observed is 0. -/
theorem wait_returns_only_at_zero_witness :
    exampleWaitReturn.countJobs = 0 :=
  (wait_returns_only_at_zero 2 [InitThread.waiter] [0, 0] exampleWaitReturn
    (by decide)).1 0 (by decide)

/-- C5: constructing a Scheduler with a null error callback fails at
construction time with the configuration error of lines 35–38 — the
`Except.error` is the throw, produced before any use — and no
Scheduler value comes into existence, so no job can ever run on such
an instance. -/
theorem null_errorSink_fails_construction (size : Nat) :
    mkScheduler size none = Except.error ("non-null error callback required")
  ∧ ∀ sch : Scheduler, mkScheduler size none ≠ Except.ok sch := by
  constructor
  · rfl
  · intro sch hok
    simp [mkScheduler] at hok

/-- C6: with the mutex held by caller `i`, `schedule` follows the
admission protocol of lines 44–81: at the admission test it re-blocks
and releases the mutex while `countJobs < capacity` fails, and passes
on to the increment exactly when the test holds; the increment step
raises the counter by one; the spawn step creates the job thread
still at its `jSleep` point with the error log untouched (the job has
not run); and the return step hands control back to the caller
regardless of the job thread's progress.  Every step is a `some` —
`schedule` has no failure path to its caller. -/
theorem schedule_admission_protocol (s : GState) (i : Nat) (o : Outcome) (d : Nat)
    (hl : s.lock = some i) :
    (s.threads.get? i = some (Phase.sWaiting o d) → ¬ s.countJobs < s.maxJobsAllowed →
      stepThread s i = some { s with
        lock := none,
        threads := s.threads.set i (Phase.sBlocked o d) })
  ∧ (s.threads.get? i = some (Phase.sWaiting o d) → s.countJobs < s.maxJobsAllowed →
      stepThread s i = some { s with threads := s.threads.set i (Phase.sInc o d) })
  ∧ (s.threads.get? i = some (Phase.sInc o d) →
      stepThread s i = some { s with
        countJobs := s.countJobs + 1,
        threads := s.threads.set i (Phase.sSpawn o d) })
  ∧ (s.threads.get? i = some (Phase.sSpawn o d) →
      stepThread s i
        = some { s with threads := (s.threads.set i Phase.sRet) ++ [Phase.jSleep o d] }
      ∧ ((s.threads.set i Phase.sRet) ++ [Phase.jSleep o d]).get? s.threads.length
        = some (Phase.jSleep o d))
  ∧ (s.threads.get? i = some Phase.sRet →
      stepThread s i = some { s with
        lock := none,
        threads := s.threads.set i Phase.sDone }) := by
  refine ⟨?_, ?_, ?_, ?_, ?_⟩
  · intro hget hge
    simp only [stepThread, hget]
    rw [if_pos hl, if_neg hge]
  · intro hget hlt
    simp only [stepThread, hget]
    rw [if_pos hl, if_pos hlt]
  · intro hget
    simp only [stepThread, hget]
    rw [if_pos hl]
  · intro hget
    constructor
    · simp only [stepThread, hget]
      rw [if_pos hl]
    · rw [← List.length_set s.threads i Phase.sRet]
      exact List.get?_concat_length _ _
  · intro hget
    simp only [stepThread, hget]
    rw [if_pos hl]

/-- C6 witness: in `exampleWaiting` the admission test holds and the
caller passes on to the increment. -/
theorem schedule_admission_protocol_witness :
    stepThread exampleWaiting 0
      = some { exampleWaiting with
          threads := exampleWaiting.threads.set 0 (Phase.sInc (Outcome.exn diskFullMsg) 3) } :=
  (schedule_admission_protocol exampleWaiting 0 (Outcome.exn diskFullMsg) 3 rfl).2.1
    rfl (by decide)

/-- C7: successful construction (non-null error callback) yields an
initialized Scheduler whose in-flight counter is 0; the start state
has the mutex free and an empty error log — no side effect beyond the
synchronization state itself. -/
theorem construction_initializes_zero_inflight (size : Nat) (ts : List InitThread) :
    mkScheduler size (some ()) = Except.ok { maxJobsAllowed := size, countJobs := 0 }
  ∧ (startState size ts).countJobs = 0
  ∧ (startState size ts).lock = none
  ∧ (startState size ts).errLog = [] :=
  ⟨rfl, rfl, rfl, rfl⟩

/-- C8: a spawned execution cannot be cancelled and its delay always
elapses before its body runs: a thread reaches the body point `jRun`
only from its own `jSleep` step (the sleep of line 62, which is the
abstraction of the full delay), every step leaves the thread list at
least as long as before (no step removes a spawned execution), and no
step of one thread moves any other thread. -/
theorem delay_elapses_before_operation (s s' : GState) (i : Nat)
    (h : stepThread s i = some s') :
    (∀ j o, s'.threads.get? j = some (Phase.jRun o) →
        s.threads.get? j = some (Phase.jRun o)
      ∨ ∃ d, s.threads.get? j = some (Phase.jSleep o d))
  ∧ s.threads.length ≤ s'.threads.length
  ∧ (∀ j p, j ≠ i → s.threads.get? j = some p → s'.threads.get? j = some p) := by
  rcases step_threads s s' i h with ⟨q, hq, hjr⟩ | ⟨o0, d0, -, hq⟩
  · refine ⟨?_, ?_, ?_⟩
    · intro j o hj
      rw [hq] at hj
      rcases get?_set_cases hj with ⟨hij, heq⟩ | ⟨-, hj2⟩
      · rcases hjr o heq.symm with ⟨d, hget⟩
        exact Or.inr ⟨d, hij ▸ hget⟩
      · exact Or.inl hj2
    · rw [hq, List.length_set]
    · intro j p hij hj
      rw [hq, List.get?_set_ne _ _ (Ne.symm hij)]
      exact hj
  · refine ⟨?_, ?_, ?_⟩
    · intro j o hj
      rw [hq] at hj
      rcases get?_append_single hj with hj2 | ⟨-, heq⟩
      · rcases get?_set_cases hj2 with ⟨-, heq⟩ | ⟨-, hj3⟩
        · exact Phase.noConfusion heq
        · exact Or.inl hj3
      · exact Phase.noConfusion heq
    · rw [hq]
      simp only [List.length_append, List.length_set, List.length_cons, List.length_nil]
      omega
    · intro j p hij hj
      have hlen : j < s.threads.length := lt_length_of_get? hj
      rw [hq, List.get?_append (by rw [List.length_set]; exact hlen),
        List.get?_set_ne _ _ (Ne.symm hij)]
      exact hj

/-- C8 witness: the sleeping job thread of `exampleSleep` steps to
`exampleRun` without shortening the thread list. -/
theorem delay_elapses_before_operation_witness :
    exampleSleep.threads.length ≤ exampleRun.threads.length :=
  (delay_elapses_before_operation exampleSleep exampleRun 0 (by decide)).2.1

/-- C9: a capacity of 0 is not rejected by the constructor, and on
such an instance no submission is ever admitted: in every reachable
state the counter is 0, no thread has ever passed the admission test
(none stands at the increment, the spawn, a job's sleep or a job's
body), and a caller at the admission test steps back to the blocked
state, releasing the mutex — the admission predicate
`countJobs < 0` is unsatisfiable, so `schedule` blocks forever. -/
theorem zero_capacity_never_admits (ts : List InitThread) (tr : List Nat) (s : GState)
    (h : run (startState 0 ts) tr = some s) :
    mkScheduler 0 (some ()) = Except.ok { maxJobsAllowed := 0, countJobs := 0 }
  ∧ s.countJobs = 0
  ∧ (∀ i o d, s.threads.get? i ≠ some (Phase.sInc o d)
      ∧ s.threads.get? i ≠ some (Phase.sSpawn o d)
      ∧ s.threads.get? i ≠ some (Phase.jSleep o d))
  ∧ (∀ i o, s.threads.get? i ≠ some (Phase.jRun o))
  ∧ (∀ i o d, s.threads.get? i = some (Phase.sWaiting o d) →
      stepThread s i = some { s with
        lock := none,
        threads := s.threads.set i (Phase.sBlocked o d) }) := by
  have hInv : Inv s := inv_run tr (startState 0 ts) s (inv_start 0 ts) h
  have hmax : s.maxJobsAllowed = 0 := run_max tr (startState 0 ts) s h
  have hcount : s.countJobs = 0 := by
    have := hInv.count_le
    omega
  refine ⟨rfl, hcount, ?_, ?_, ?_⟩
  · intro i o d
    refine ⟨?_, ?_, ?_⟩
    · intro hj
      have := hInv.inc_lt i o d hj
      omega
    · intro hj
      have h1 := contrib_le_running s i _ hj
      have h2 := hInv.count_run
      simp only [runningContrib] at h1
      omega
    · intro hj
      have h1 := contrib_le_running s i _ hj
      have h2 := hInv.count_run
      simp only [runningContrib] at h1
      omega
  · intro i o
    intro hj
    have h1 := contrib_le_running s i _ hj
    have h2 := hInv.count_run
    simp only [runningContrib] at h1
    omega
  · intro i o d hj
    have hl : s.lock = some i := hInv.lock_phase i _ hj rfl
    have hge : ¬ s.countJobs < s.maxJobsAllowed := by omega
    simp only [stepThread, hj]
    rw [if_pos hl, if_neg hge]

/-- C9 witness: in the reachable state `exampleZeroCap` of a
capacity-0 scheduler the counter is 0. -/
theorem zero_capacity_never_admits_witness :
    exampleZeroCap.countJobs = 0 :=
  (zero_capacity_never_admits [InitThread.sched Outcome.success 4] [0] exampleZeroCap
    (by decide)).2.1

/-- C10: the error callback is invoked exactly for failing bodies:
the wrapper's report list is empty exactly when the body succeeded,
and the body step appends exactly that list to the log — so a
successful job never produces a callback invocation, and a failing
one always does. -/
theorem errorSink_called_iff_failure (o : Outcome) (s : GState) (i : Nat)
    (hget : s.threads.get? i = some (Phase.jRun o)) :
    (jobWrapper o = [] ↔ o = Outcome.success)
  ∧ stepThread s i = some { s with
      errLog := s.errLog ++ jobWrapper o,
      threads := s.threads.set i Phase.jNotify } := by
  constructor
  · constructor
    · intro he
      cases o with
      | success => rfl
      | exn msg => exact absurd he (by simp [jobWrapper])
      | unknown => exact absurd he (by simp [jobWrapper])
    · intro ho
      subst ho
      rfl
  · simp only [stepThread, hget]

/-- C10 witness: the failing job thread of `exampleRun` reports its
message to the log in its body step. -/
theorem errorSink_called_iff_failure_witness :
    stepThread exampleRun 0 = some { exampleRun with
      errLog := exampleRun.errLog ++ jobWrapper (Outcome.exn diskFullMsg),
      threads := exampleRun.threads.set 0 Phase.jNotify } :=
  (errorSink_called_iff_failure (Outcome.exn diskFullMsg) exampleRun 0 rfl).2

end TaskSchedular
